import Mathlib

/-!
# Verification of the devspace pipeline core

Shallow embedding of `pkg/devspace/pipeline/job.go` (the `PipelineJob`
type with its `Run`, `doWork`, `shouldExecuteStep` and `executeStep`
methods) and of `printDependencyRecursive` from `cmd/print.go`.

The external shell executor (`engine.ExecuteShellCommand`) is modelled
as an oracle: a function from the command line, working directory,
positional arguments, step environment and the handler's force-log mode
to an execution result.  The result carries the termination signal of
the interpreted script (`nil`, an exit status recognised by
`interp.IsExitStatus`, or another failure) together with the sequence of
chunks the child process wrote to its stdout/stderr sinks, in write
order.  Everything downstream of that call is translated directly from
the Go source.
-/

/-- Which standard stream a chunk of child output was written to.
In `shouldExecuteStep` the two streams go to two separate `bytes.Buffer`
captures; in `executeStep` both sinks are the same pipe writer. -/
inductive StdStream where
  | out
  | err
  deriving DecidableEq, Repr

/-- The terminal signal of `engine.ExecuteShellCommand`: `exitStatus s`
is an error recognised by `interp.IsExitStatus` with status `s`
(nonzero), and `other` is any abnormal failure that is not a plain exit
status. -/
inductive ExecError where
  | exitStatus (status : Nat)
  | other (msg : String)
  deriving DecidableEq, Repr

/-- The rendering `%v` gives of the executor's error value. -/
def ExecError.message : ExecError → String
  | .exitStatus s => "exit status " ++ toString s
  | .other m => m

/-- Result of one shell execution: optional error plus the chunks the
script wrote, tagged with the stream each write targeted, in order. -/
structure ExecResult where
  err : Option ExecError
  output : List (StdStream × String)
  deriving DecidableEq, Repr

/-- What a `bytes.Buffer` attached to the stdout sink captures: the
concatenation of the stdout writes. -/
def ExecResult.stdoutStr (r : ExecResult) : String :=
  String.join ((r.output.filter (fun p => p.1 = .out)).map Prod.snd)

/-- What a `bytes.Buffer` attached to the stderr sink captures. -/
def ExecResult.stderrStr (r : ExecResult) : String :=
  String.join ((r.output.filter (fun p => p.1 = .err)).map Prod.snd)

/-- Characters of the combined stream seen by a single writer that both
sinks point at (the `io.Pipe` in `executeStep`): all chunks in write
order. -/
def ExecResult.combinedChars (r : ExecResult) : List Char :=
  (r.output.map (fun p => p.2.data)).flatten

/-- One step of the pipeline configuration (`latest.PipelineStep`):
the `Run` command line, the optional `If` condition command line, the
optional working-directory override and step-scoped env overrides. -/
structure PipelineStep where
  Run : String
  If : String
  Directory : String
  Env : List (String × String)
  deriving DecidableEq, Repr

/-- A job configuration (`latest.PipelineJob`): the ordered steps and
whether a rerun/watch policy is declared (the policy itself is inert in
this core). -/
structure JobConfig where
  Steps : List PipelineStep
  Rerun : Bool
  deriving DecidableEq, Repr

/-- The oracle for `engine.ExecuteShellCommand`.  `exec forceLog cmd dir
args env` is the result of running command line `cmd` in directory
`dir` with positional arguments `args` and environment overrides `env`
under an exec handler created with the given force-log mode
(`engine.NewExecHandler(ctx, registry, manager, forceLog)`). -/
structure ShellWorld where
  args : List String
  exec : Bool → String → String → List String → List (String × String) → ExecResult

/-- `strings.TrimSpace`: drop whitespace from both ends.  (Modelled
structurally over the character list; Go trims Unicode white space,
here `Char.isWhitespace`.) -/
def trimSpace (s : String) : String :=
  String.mk ((s.data.dropWhile Char.isWhitespace).reverse.dropWhile Char.isWhitespace).reverse

/-- The formatted message of
`fmt.Errorf("error: %v (stdout: %s, stderr: %s)", err, stdout, stderr)`
in `shouldExecuteStep`. -/
def condErrMsg (e : ExecError) (r : ExecResult) : String :=
  "error: " ++ e.message ++ " (stdout: " ++ r.stdoutStr ++ ", stderr: " ++ r.stderrStr ++ ")"

/-- `(*PipelineJob).shouldExecuteStep`, translated from the source.
Note that the source executes `step.Run` — not `step.If` — as the
condition command line, with both sinks private buffers (output
captured, not forwarded) and a non-force-log handler.  Returns
(execute?, optional error message). -/
def shouldExecuteStep (w : ShellWorld) (step : PipelineStep) : Bool × Option String :=
  let r := w.exec false step.Run step.Directory w.args step.Env
  match r.err with
  | some e =>
    if e = ExecError.exitStatus 1 then (false, none)
    else (false, some (condErrMsg e r))
  | none =>
    if trimSpace r.stdoutStr = "false" then (false, none)
    else (true, none)

/-- The condition check as the specification words it: evaluate the
step's `If` command line (all else as in `shouldExecuteStep`).  Used
only to compare against what the source does. -/
def shouldExecuteStepSpec (w : ShellWorld) (step : PipelineStep) : Bool × Option String :=
  let r := w.exec false step.If step.Directory w.args step.Env
  match r.err with
  | some e =>
    if e = ExecError.exitStatus 1 then (false, none)
    else (false, some (condErrMsg e r))
  | none =>
    if trimSpace r.stdoutStr = "false" then (false, none)
    else (true, none)

/-- One feed of the line scanner (`scanner.NewScanner` consuming the
pipe): scan the characters of `input` left to right with the pending
partial line `buf` held in reverse; emit a completed line at each
newline; return the emitted lines and the new pending buffer. -/
def scanFeed : List Char → List Char → List String × List Char
  | [], buf => ([], buf)
  | c :: cs, buf =>
    if c = '\n' then
      let p := scanFeed cs []
      (String.mk buf.reverse :: p.1, p.2)
    else scanFeed cs (c :: buf)

/-- End of stream: the scanner emits a final non-terminated line if any
characters are pending. -/
def flushScan (p : List String × List Char) : List String :=
  if p.2 = [] then p.1 else p.1 ++ [String.mk p.2.reverse]

/-- The lines the scanner produces from a complete character stream. -/
def linesOf (cs : List Char) : List String :=
  flushScan (scanFeed cs [])

/-- The scanner goroutine of `executeStep` run against the chunked
writes arriving through the pipe: each chunk is fed as it is written,
the partial-line buffer carrying over between chunks, and the buffer is
flushed when the write side closes. -/
def scanChunks : List String → List Char → List String
  | [], buf => if buf = [] then [] else [String.mk buf.reverse]
  | chunk :: rest, buf =>
    let p := scanFeed chunk.data buf
    p.1 ++ scanChunks rest p.2

/-- A record forwarded to the logger.  `executeStep` only ever emits at
info level (`ctx.Log.Info`). -/
inductive LogLevel where
  | info
  deriving DecidableEq, Repr

/-- `(*PipelineJob).executeStep`: run `step.Run` with both stdout and
stderr wired to one pipe whose reader is line-scanned into
`ctx.Log.Info`, under a force-log handler; return the logged records
and the execution error exactly as the executor reported it. -/
def executeStep (w : ShellWorld) (step : PipelineStep) :
    List (LogLevel × String) × Option ExecError :=
  let r := w.exec true step.Run step.Directory w.args step.Env
  ((scanChunks (r.output.map Prod.snd) []).map (fun l => (LogLevel.info, l)), r.err)

/-! ## Scanner lemmas: chunked scanning equals scanning the whole stream -/

theorem scanFeed_append (a b : List Char) (buf : List Char) :
    scanFeed (a ++ b) buf =
      ((scanFeed a buf).1 ++ (scanFeed b (scanFeed a buf).2).1,
        (scanFeed b (scanFeed a buf).2).2) := by
  induction a generalizing buf with
  | nil => simp [scanFeed]
  | cons c cs ih =>
    by_cases h : c = '\n'
    · simp [scanFeed, h, ih]
    · simp [scanFeed, h, ih]

theorem flushScan_append (l₁ l₂ : List String) (b : List Char) :
    flushScan (l₁ ++ l₂, b) = l₁ ++ flushScan (l₂, b) := by
  unfold flushScan
  by_cases h : b = [] <;> simp [h]

theorem scanChunks_eq_linesOf (cs : List String) (buf : List Char) :
    scanChunks cs buf = flushScan (scanFeed (cs.map String.data).flatten buf) := by
  induction cs generalizing buf with
  | nil => simp [scanChunks, scanFeed, flushScan]
  | cons c rest ih =>
    simp only [scanChunks, List.map_cons, List.flatten_cons, scanFeed_append]
    rw [flushScan_append, ih]

/-! ## Claim theorems for the Step Runner's condition check and body -/

/-- A world and a step exhibiting which command line the condition check
executes: `If` is a command that exits with status 1 (a clean "false");
`Run` is a command that succeeds with output "hi". -/
def stepC1 : PipelineStep := { Run := "echo hi", If := "exit 1", Directory := "", Env := [] }

def wC1 : ShellWorld :=
  { args := [],
    exec := fun _ cmd _ _ _ =>
      if cmd = "exit 1" then { err := some (ExecError.exitStatus 1), output := [] }
      else { err := none, output := [(StdStream.out, "hi\n")] } }

/-- C1: the claim says the condition check executes the step's `If`
command line, but `shouldExecuteStep` executes `step.Run`.  With `If` a
command exiting 1 (condition false) and `Run` a succeeding command, the
source decides to execute the step, while evaluating `If` as the spec
words it would skip it. -/
theorem shouldExecuteStep_executes_run_not_if :
    shouldExecuteStep wC1 stepC1 = (true, none) ∧
    shouldExecuteStepSpec wC1 stepC1 = (false, none) := by
  constructor <;> decide

/-- C3: interpretation of the condition command's result in
`shouldExecuteStep`: exit status exactly 1 skips with no error; any
other error yields an error message containing both captured streams;
success with stdout trimming to "false" skips; any other success
executes the body. -/
theorem shouldExecuteStep_condition_semantics (w : ShellWorld) (step : PipelineStep)
    (r : ExecResult) (hIf : step.If ≠ "")
    (hr : w.exec false step.Run step.Directory w.args step.Env = r) :
    (r.err = some (ExecError.exitStatus 1) → shouldExecuteStep w step = (false, none)) ∧
    (∀ e, r.err = some e → e ≠ ExecError.exitStatus 1 →
      shouldExecuteStep w step = (false, some (condErrMsg e r)) ∧
      r.stdoutStr.data <:+: (condErrMsg e r).data ∧
      r.stderrStr.data <:+: (condErrMsg e r).data) ∧
    (r.err = none → trimSpace r.stdoutStr = "false" → shouldExecuteStep w step = (false, none)) ∧
    (r.err = none → trimSpace r.stdoutStr ≠ "false" → shouldExecuteStep w step = (true, none)) := by
  refine ⟨?_, ?_, ?_, ?_⟩
  · intro h1
    simp [shouldExecuteStep, hr, h1]
  · intro e he hne
    refine ⟨by simp [shouldExecuteStep, hr, he, hne], ?_, ?_⟩
    · refine ⟨("error: " ++ e.message ++ " (stdout: ").data, (", stderr: " ++ r.stderrStr ++ ")").data, ?_⟩
      simp [condErrMsg, String.data_append]
    · refine ⟨("error: " ++ e.message ++ " (stdout: " ++ r.stdoutStr ++ ", stderr: ").data, (")" : String).data, ?_⟩
      simp [condErrMsg, String.data_append]
  · intro h0 hf
    simp [shouldExecuteStep, hr, h0, hf]
  · intro h0 hf
    simp [shouldExecuteStep, hr, h0, hf]

def stepC3 : PipelineStep := { Run := "check", If := "check", Directory := "", Env := [] }

def rC3 : ExecResult := { err := some (ExecError.exitStatus 1), output := [] }

def wC3 : ShellWorld := { args := [], exec := fun _ _ _ _ _ => rC3 }

theorem shouldExecuteStep_condition_semantics_witness :
    stepC3.If ≠ "" ∧
    wC3.exec false stepC3.Run stepC3.Directory wC3.args stepC3.Env = rC3 ∧
    shouldExecuteStep wC3 stepC3 = (false, none) :=
  ⟨by decide, rfl,
    (shouldExecuteStep_condition_semantics wC3 stepC3 rC3 (by decide) rfl).1 rfl⟩

/-- A failing step body that writes "boom" before exiting 2: the claim
that the output is captured for error reporting fails, because the
error `executeStep` returns is the executor's error value unchanged. -/
def stepC4 : PipelineStep := { Run := "fail loud", If := "", Directory := "", Env := [] }

def rC4 : ExecResult :=
  { err := some (ExecError.exitStatus 2), output := [(StdStream.out, "boom\n")] }

def wC4 : ShellWorld := { args := [], exec := fun _ _ _ _ _ => rC4 }

/-- C4 counterexample: the step body fails after writing "boom"; the
line is forwarded to the logger, but the returned error is the bare
exit-status error, whose rendering does not contain the output — no
captured output accompanies the error. -/
theorem executeStep_error_lacks_output :
    executeStep wC4 stepC4 = ([(LogLevel.info, "boom")], some (ExecError.exitStatus 2)) ∧
    ¬ ("boom".data <:+: (ExecError.exitStatus 2).message.data) := by
  constructor
  · rfl
  · decide

/-- C4 amended: both streams of an executed step body are forwarded,
line by line in write order, to the logger at info level (chunk
boundaries do not matter), and the execution error is returned exactly
as the executor reported it, with no captured output attached. -/
theorem executeStep_forwards_lines_returns_raw_error (w : ShellWorld) (step : PipelineStep)
    (r : ExecResult) (hr : w.exec true step.Run step.Directory w.args step.Env = r) :
    executeStep w step =
      ((linesOf r.combinedChars).map (fun l => (LogLevel.info, l)), r.err) := by
  simp only [executeStep, hr, linesOf, ExecResult.combinedChars]
  rw [scanChunks_eq_linesOf]
  simp [List.map_map, Function.comp_def]

theorem executeStep_forwards_lines_witness :
    wC4.exec true stepC4.Run stepC4.Directory wC4.args stepC4.Env = rC4 ∧
    executeStep wC4 stepC4 = ((linesOf rC4.combinedChars).map (fun l => (LogLevel.info, l)), rC4.err) :=
  ⟨rfl, executeStep_forwards_lines_returns_raw_error wC4 stepC4 rC4 rfl⟩

/-! ## The work function `doWork` -/

/-- A job-level error: the condition-check error wrapped by
`errors.Wrapf(err, "error checking if at step %d", i)` with the step's
0-based index, a step-body error returned without modification, or a
synchronous failure of `j.Job.Start` (never produced by `doWork`
itself, only stored in the node's error slot by `Run`). -/
inductive JobError where
  | condWrapped (i : Nat) (msg : String)
  | stepErr (e : ExecError)
  | startFailure (msg : String)
  deriving DecidableEq, Repr

/-- The `execute` flag of the loop body of `doWork`: `true` when `If`
is empty, otherwise the first component of `shouldExecuteStep`. -/
def stepExecutes (w : ShellWorld) (step : PipelineStep) : Bool :=
  if step.If ≠ "" then (shouldExecuteStep w step).1 else true

/-- The `err` of the condition check in the loop body of `doWork`:
`nil` when `If` is empty, otherwise the second component of
`shouldExecuteStep`. -/
def stepCondErr (w : ShellWorld) (step : PipelineStep) : Option String :=
  if step.If ≠ "" then (shouldExecuteStep w step).2 else none

/-- `(*PipelineJob).doWork` from step index `i` on: returns the list of
indices whose step body was executed, in execution order, and the error
the loop stopped at, if any. -/
def doWorkFrom (w : ShellWorld) : Nat → List PipelineStep → List Nat × Option JobError
  | _, [] => ([], none)
  | i, step :: rest =>
    match stepCondErr w step with
    | some msg => ([], some (JobError.condWrapped i msg))
    | none =>
      if stepExecutes w step then
        match (executeStep w step).2 with
        | some e => ([i], some (JobError.stepErr e))
        | none =>
          let p := doWorkFrom w (i + 1) rest
          (i :: p.1, p.2)
      else doWorkFrom w (i + 1) rest

/-- `(*PipelineJob).doWork`: the loop over `j.JobConfig.Steps`. -/
def doWork (w : ShellWorld) (cfg : JobConfig) : List Nat × Option JobError :=
  doWorkFrom w 0 cfg.Steps

/-- The error step `step` at index `i` produces in the `doWork` loop,
if any: a wrapped condition error, or the body's error when the body
runs and fails. -/
def stepError (w : ShellWorld) (i : Nat) (step : PipelineStep) : Option JobError :=
  match stepCondErr w step with
  | some msg => some (JobError.condWrapped i msg)
  | none =>
    if stepExecutes w step then (executeStep w step).2.map JobError.stepErr
    else none

/-- `stepError` at position `k` of a step list whose first element has
absolute index `i`. -/
def stepErrorFrom (w : ShellWorld) (steps : List PipelineStep) (i k : Nat) : Option JobError :=
  match steps[k]? with
  | some s => stepError w (i + k) s
  | none => none

/-- `stepError` at position `i` of the full step list. -/
def stepErrorAt (w : ShellWorld) (steps : List PipelineStep) (i : Nat) : Option JobError :=
  stepErrorFrom w steps 0 i

/-- Does the step at position `k` pass its condition? -/
def stepExecutesAt (w : ShellWorld) (steps : List PipelineStep) (k : Nat) : Bool :=
  match steps[k]? with
  | some s => stepExecutes w s
  | none => false

theorem stepErrorFrom_succ (w : ShellWorld) (s : PipelineStep) (rest : List PipelineStep)
    (i k : Nat) : stepErrorFrom w (s :: rest) i (k + 1) = stepErrorFrom w rest (i + 1) k := by
  have h : i + (k + 1) = (i + 1) + k := by omega
  simp [stepErrorFrom, h]

theorem stepErrorFrom_zero (w : ShellWorld) (s : PipelineStep) (rest : List PipelineStep)
    (i : Nat) : stepErrorFrom w (s :: rest) i 0 = stepError w i s := by
  simp [stepErrorFrom]

theorem stepExecutesAt_succ (w : ShellWorld) (s : PipelineStep) (rest : List PipelineStep)
    (k : Nat) : stepExecutesAt w (s :: rest) (k + 1) = stepExecutesAt w rest k := by
  simp [stepExecutesAt]

theorem stepExecutesAt_zero (w : ShellWorld) (s : PipelineStep) (rest : List PipelineStep) :
    stepExecutesAt w (s :: rest) 0 = stepExecutes w s := by
  simp [stepExecutesAt]

/-- Full characterisation of `doWorkFrom`: executed indices are
strictly increasing and at least `i`; on success every step was
error-free and exactly the condition-passing positions were executed;
on failure there is a first erroring position, the reported error is
that position's, and no later position was executed. -/
theorem doWorkFrom_char (w : ShellWorld) (steps : List PipelineStep) : ∀ i : Nat,
    (doWorkFrom w i steps).1.Chain' (fun a b => a < b) ∧
    (∀ j ∈ (doWorkFrom w i steps).1, i ≤ j) ∧
    ((doWorkFrom w i steps).2 = none →
      (∀ k, k < steps.length → stepErrorFrom w steps i k = none) ∧
      (∀ j, j ∈ (doWorkFrom w i steps).1 ↔
        ∃ k, k < steps.length ∧ j = i + k ∧ stepExecutesAt w steps k = true)) ∧
    (∀ e, (doWorkFrom w i steps).2 = some e →
      ∃ k, k < steps.length ∧ stepErrorFrom w steps i k = some e ∧
        (∀ m, m < k → stepErrorFrom w steps i m = none) ∧
        ∀ j ∈ (doWorkFrom w i steps).1, j ≤ i + k) := by
  induction steps with
  | nil =>
    intro i
    refine ⟨by simp [doWorkFrom], by simp [doWorkFrom], ?_, ?_⟩
    · intro _
      constructor
      · intro k hk; simp at hk
      · intro j; simp [doWorkFrom]
    · intro e he; simp [doWorkFrom] at he
  | cons s rest ih =>
    intro i
    match hc : stepCondErr w s with
    | some msg =>
      have hd : doWorkFrom w i (s :: rest) = ([], some (JobError.condWrapped i msg)) := by
        simp [doWorkFrom, hc]
      refine ⟨by simp [hd], by simp [hd], ?_, ?_⟩
      · intro hnone; rw [hd] at hnone; simp at hnone
      · intro e he
        rw [hd] at he
        simp only [Option.some.injEq] at he
        refine ⟨0, by simp, ?_, by omega, by simp [hd]⟩
        rw [stepErrorFrom_zero]
        simp [stepError, hc, ← he]
    | none =>
      by_cases hx : stepExecutes w s
      · match hb : (executeStep w s).2 with
        | some e0 =>
          have hd : doWorkFrom w i (s :: rest) = ([i], some (JobError.stepErr e0)) := by
            simp [doWorkFrom, hc, hx, hb]
          refine ⟨by simp [hd], by simp [hd], ?_, ?_⟩
          · intro hnone; rw [hd] at hnone; simp at hnone
          · intro e he
            rw [hd] at he
            simp only [Option.some.injEq] at he
            refine ⟨0, by simp, ?_, by omega, by simp [hd]⟩
            rw [stepErrorFrom_zero]
            simp [stepError, hc, hx, hb, ← he]
        | none =>
          have hd : doWorkFrom w i (s :: rest) =
              (i :: (doWorkFrom w (i + 1) rest).1, (doWorkFrom w (i + 1) rest).2) := by
            simp [doWorkFrom, hc, hx, hb]
          obtain ⟨ihChain, ihLB, ihNone, ihSome⟩ := ih (i + 1)
          refine ⟨?_, ?_, ?_, ?_⟩
          · rw [hd]
            rw [List.chain'_cons']
            exact ⟨fun y hy => by
                have := ihLB y (List.mem_of_mem_head? hy)
                omega,
              ihChain⟩
          · intro j hj
            rw [hd] at hj
            rcases List.mem_cons.mp hj with h | h
            · omega
            · have := ihLB j h; omega
          · intro hnone
            rw [hd] at hnone
            obtain ⟨hall, hmem⟩ := ihNone hnone
            constructor
            · intro k hk
              match k with
              | 0 =>
                rw [stepErrorFrom_zero]
                simp [stepError, hc, hx, hb]
              | k + 1 =>
                rw [stepErrorFrom_succ]
                exact hall k (by simpa using hk)
            · intro j
              rw [hd]
              simp only [List.mem_cons]
              constructor
              · rintro (rfl | h)
                · exact ⟨0, by simp, by omega, by rw [stepExecutesAt_zero]; exact hx⟩
                · obtain ⟨k, hk, hj, hex⟩ := (hmem j).mp h
                  exact ⟨k + 1, by simpa using hk, by omega, by rw [stepExecutesAt_succ]; exact hex⟩
              · rintro ⟨k, hk, rfl, hex⟩
                match k with
                | 0 => left; omega
                | k + 1 =>
                  right
                  rw [stepExecutesAt_succ] at hex
                  exact (hmem (i + (k + 1))).mpr ⟨k, by simpa using hk, by omega, hex⟩
          · intro e he
            rw [hd] at he
            obtain ⟨k, hk, herr, hprev, hub⟩ := ihSome e he
            refine ⟨k + 1, by simpa using hk, ?_, ?_, ?_⟩
            · rw [stepErrorFrom_succ]
              exact herr
            · intro m hm
              match m with
              | 0 =>
                rw [stepErrorFrom_zero]
                simp [stepError, hc, hx, hb]
              | m + 1 =>
                rw [stepErrorFrom_succ]
                exact hprev m (by omega)
            · intro j hj
              rw [hd] at hj
              rcases List.mem_cons.mp hj with rfl | h
              · omega
              · have := hub j h; omega
      · have hd : doWorkFrom w i (s :: rest) = doWorkFrom w (i + 1) rest := by
          simp [doWorkFrom, hc, hx]
        obtain ⟨ihChain, ihLB, ihNone, ihSome⟩ := ih (i + 1)
        refine ⟨by rw [hd]; exact ihChain, ?_, ?_, ?_⟩
        · intro j hj
          rw [hd] at hj
          have := ihLB j hj; omega
        · intro hnone
          rw [hd] at hnone
          obtain ⟨hall, hmem⟩ := ihNone hnone
          constructor
          · intro k hk
            match k with
            | 0 =>
              rw [stepErrorFrom_zero]
              simp [stepError, hc, hx]
            | k + 1 =>
              rw [stepErrorFrom_succ]
              exact hall k (by simpa using hk)
          · intro j
            rw [hd]
            constructor
            · intro h
              obtain ⟨k, hk, hj, hex⟩ := (hmem j).mp h
              exact ⟨k + 1, by simpa using hk, by omega, by rw [stepExecutesAt_succ]; exact hex⟩
            · rintro ⟨k, hk, rfl, hex⟩
              match k with
              | 0 =>
                rw [stepExecutesAt_zero] at hex
                exact absurd hex (by simp [hx])
              | k + 1 =>
                rw [stepExecutesAt_succ] at hex
                exact (hmem (i + (k + 1))).mpr ⟨k, by simpa using hk, by omega, hex⟩
        · intro e he
          rw [hd] at he
          obtain ⟨k, hk, herr, hprev, hub⟩ := ihSome e he
          refine ⟨k + 1, by simpa using hk, ?_, ?_, ?_⟩
          · rw [stepErrorFrom_succ]
            exact herr
          · intro m hm
            match m with
            | 0 =>
              rw [stepErrorFrom_zero]
              simp [stepError, hc, hx]
            | m + 1 =>
              rw [stepErrorFrom_succ]
              exact hprev m (by omega)
          · intro j hj
            rw [hd] at hj
            have := hub j hj; omega

theorem stepError_shape (w : ShellWorld) (i : Nat) (s : PipelineStep) (e : JobError)
    (h : stepError w i s = some e) :
    (∃ msg, e = JobError.condWrapped i msg) ∨ ∃ ex, e = JobError.stepErr ex := by
  unfold stepError at h
  cases hc : stepCondErr w s with
  | some msg =>
    rw [hc] at h
    simp only [Option.some.injEq] at h
    exact Or.inl ⟨msg, h.symm⟩
  | none =>
    rw [hc] at h
    by_cases hx : stepExecutes w s
    · rw [if_pos hx] at h
      cases hb : (executeStep w s).2 with
      | some ex =>
        rw [hb] at h
        simp only [Option.map_some', Option.some.injEq] at h
        exact Or.inr ⟨ex, h.symm⟩
      | none => rw [hb] at h; simp at h
    · rw [if_neg hx] at h; simp at h

/-- C7: within one job the step bodies execute strictly in declared
order; when no step errors, exactly the condition-passing steps run
(a skip does not stop later steps); when the run errors, there is a
first erroring step and nothing past it was executed. -/
theorem doWork_order_stop_skip (w : ShellWorld) (cfg : JobConfig) :
    (doWork w cfg).1.Chain' (fun a b => a < b) ∧
    ((doWork w cfg).2 = none →
      ∀ j, j ∈ (doWork w cfg).1 ↔
        (j < cfg.Steps.length ∧ stepExecutesAt w cfg.Steps j = true)) ∧
    (∀ e, (doWork w cfg).2 = some e →
      ∃ k, k < cfg.Steps.length ∧ stepErrorAt w cfg.Steps k = some e ∧
        (∀ m, m < k → stepErrorAt w cfg.Steps m = none) ∧
        ∀ j ∈ (doWork w cfg).1, j ≤ k) := by
  obtain ⟨hChain, hLB, hNone, hSome⟩ := doWorkFrom_char w cfg.Steps 0
  simp only [doWork, stepErrorAt]
  refine ⟨hChain, ?_, ?_⟩
  · intro h0 j
    rw [(hNone h0).2 j]
    constructor
    · rintro ⟨k, hk, rfl, hex⟩
      exact ⟨by omega, by simpa using hex⟩
    · rintro ⟨hj, hex⟩
      exact ⟨j, hj, by omega, hex⟩
  · intro e he
    obtain ⟨k, hk, herr, hprev, hub⟩ := hSome e he
    exact ⟨k, hk, herr, hprev, fun j hj => by have := hub j hj; omega⟩

/-- A step that is skipped (its condition command exits 1) followed by
a step that runs: used to instantiate the ordering theorem. -/
def stepSkip : PipelineStep := { Run := "skipcmd", If := "cond", Directory := "", Env := [] }

def stepOk : PipelineStep := { Run := "okcmd", If := "", Directory := "", Env := [] }

def w7 : ShellWorld :=
  { args := [],
    exec := fun _ cmd _ _ _ =>
      if cmd = "skipcmd" then { err := some (ExecError.exitStatus 1), output := [] }
      else { err := none, output := [] } }

def cfg7 : JobConfig := { Steps := [stepSkip, stepOk], Rerun := false }

theorem doWork_order_stop_skip_witness :
    (doWork w7 cfg7).2 = none ∧
    (1 ∈ (doWork w7 cfg7).1 ↔ (1 < cfg7.Steps.length ∧ stepExecutesAt w7 cfg7.Steps 1 = true)) :=
  ⟨by decide, (doWork_order_stop_skip w7 cfg7).2.1 (by decide) 1⟩

/-- A single step whose body fails with exit status 2. -/
def stepC2 : PipelineStep := { Run := "boom", If := "", Directory := "", Env := [] }

def wC2 : ShellWorld :=
  { args := [], exec := fun _ _ _ _ _ => { err := some (ExecError.exitStatus 2), output := [] } }

def cfgC2 : JobConfig := { Steps := [stepC2], Rerun := false }

/-- C2 counterexample: a failing step body makes `doWork` return the
executor's error value as-is — a `stepErr`, which is not of the wrapped
form carrying a step index — so "that error wrapped with the 0-based
step index" does not hold for step-body failures. -/
theorem doWork_body_error_not_wrapped :
    (doWork wC2 cfgC2).2 = some (JobError.stepErr (ExecError.exitStatus 2)) ∧
    ∀ i msg, JobError.stepErr (ExecError.exitStatus 2) ≠ JobError.condWrapped i msg :=
  ⟨by decide, fun _ _ h => JobError.noConfusion h⟩

/-- C2 amended: `doWork` stops at the first step that produces an
error; a condition-evaluation error is returned wrapped with that
step's 0-based index, while a failing step body's error is returned
as-is, unwrapped. -/
theorem doWork_stops_at_first_error (w : ShellWorld) (cfg : JobConfig) (e : JobError)
    (h : (doWork w cfg).2 = some e) :
    ∃ i, i < cfg.Steps.length ∧ stepErrorAt w cfg.Steps i = some e ∧
      (∀ m, m < i → stepErrorAt w cfg.Steps m = none) ∧
      (∀ j ∈ (doWork w cfg).1, j ≤ i) ∧
      ((∃ msg, e = JobError.condWrapped i msg) ∨ ∃ ex, e = JobError.stepErr ex) := by
  obtain ⟨_, _, _, hSome⟩ := doWorkFrom_char w cfg.Steps 0
  simp only [doWork, stepErrorAt] at h ⊢
  obtain ⟨k, hk, herr, hprev, hub⟩ := hSome e h
  refine ⟨k, hk, herr, hprev, fun j hj => by have := hub j hj; omega, ?_⟩
  have hs := herr
  unfold stepErrorFrom at hs
  cases hg : cfg.Steps[k]? with
  | none => rw [hg] at hs; exact Option.noConfusion hs
  | some s =>
    rw [hg] at hs
    have := stepError_shape w (0 + k) s e hs
    simpa using this

theorem doWork_stops_at_first_error_witness :
    (doWork wC2 cfgC2).2 = some (JobError.stepErr (ExecError.exitStatus 2)) ∧
    ∃ i, i < cfgC2.Steps.length ∧
      stepErrorAt wC2 cfgC2.Steps i = some (JobError.stepErr (ExecError.exitStatus 2)) ∧
      (∀ m, m < i → stepErrorAt wC2 cfgC2.Steps m = none) ∧
      (∀ j ∈ (doWork wC2 cfgC2).1, j ≤ i) ∧
      ((∃ msg, JobError.stepErr (ExecError.exitStatus 2) = JobError.condWrapped i msg) ∨
        ∃ ex, JobError.stepErr (ExecError.exitStatus 2) = JobError.stepErr ex) :=
  ⟨by decide, doWork_stops_at_first_error wC2 cfgC2 _ (by decide)⟩

/-! ## The Pipeline Job's `Run`: one-time guard, gating, sticky error

`sync.Once` serialises the guarded body, so concurrent `Run` calls on
one node linearise into a sequence of calls against the node's state.
A `JobState` holds the fields of `PipelineJob` that `Run` mutates — the
consumed-guard flag of `startOnce` and the `err` slot — plus two
instrumentation counters: how often `j.Job.Start` was invoked and how
often the work function (`doWork`) actually ran.  A `RunInput` resolves,
for one call, the external nondeterminism: which branch the gating
`select` takes, and whether the abstract `Job.Start` fails
synchronously.  The `Job` capability is modelled as invoking the work
callback and reporting its error as the job's terminal error. -/

structure JobState where
  started : Bool
  err : Option JobError
  startCount : Nat
  workCount : Nat
  deriving DecidableEq, Repr

/-- The fresh state of a `PipelineJob`. -/
def initState : JobState :=
  { started := false, err := none, startCount := 0, workCount := 0 }

/-- What one `Run` call observes: the gating `select` chose the
context's cancellation signal while a parent was still pending;
`j.Job.Start` returned a synchronous error; or the job started, ran
the work function against the given shell world and signalled done. -/
inductive RunInput where
  | cancelledInGate
  | startFailed (msg : String)
  | started (w : ShellWorld)

/-- `(*PipelineJob).Run`: if the `startOnce` guard is consumed the body
is skipped; otherwise the guard is consumed and the body runs to the
point the input describes — cancellation during gating leaves the error
slot untouched, a synchronous `Start` failure stores its error, and a
started job stores the work function's terminal error (the declared
rerun policy is inert).  The call returns `j.err` afterwards. -/
def PipelineJob.run (cfg : JobConfig) (st : JobState) (inp : RunInput) :
    JobState × Option JobError :=
  let next :=
    if st.started then st
    else
      match inp with
      | .cancelledInGate => { st with started := true }
      | .startFailed msg =>
        { st with started := true, err := some (JobError.startFailure msg),
                  startCount := st.startCount + 1 }
      | .started w =>
        { st with started := true, err := (doWork w cfg).2,
                  startCount := st.startCount + 1, workCount := st.workCount + 1 }
  (next, next.err)

/-- A sequence of `Run` calls against one node, returning the final
state and each call's returned error. -/
def runSeq (cfg : JobConfig) (st : JobState) : List RunInput → JobState × List (Option JobError)
  | [] => (st, [])
  | inp :: rest =>
    let p := PipelineJob.run cfg st inp
    let q := runSeq cfg p.1 rest
    (q.1, p.2 :: q.2)

theorem run_ret (cfg : JobConfig) (st : JobState) (inp : RunInput) :
    (PipelineJob.run cfg st inp).2 = (PipelineJob.run cfg st inp).1.err := rfl

theorem run_of_started (cfg : JobConfig) (st : JobState) (inp : RunInput)
    (h : st.started = true) : PipelineJob.run cfg st inp = (st, st.err) := by
  simp [PipelineJob.run, h]

theorem run_sets_started (cfg : JobConfig) (st : JobState) (inp : RunInput) :
    (PipelineJob.run cfg st inp).1.started = true := by
  by_cases h : st.started
  · simp [PipelineJob.run, h]
  · cases inp <;> simp [PipelineJob.run, h]

theorem runSeq_of_started (cfg : JobConfig) (st : JobState) (l : List RunInput)
    (h : st.started = true) : runSeq cfg st l = (st, l.map (fun _ => st.err)) := by
  induction l with
  | nil => simp [runSeq]
  | cons inp rest ih => simp [runSeq, run_of_started cfg st inp h, ih]

theorem run_initial_workCount (cfg : JobConfig) (inp : RunInput) :
    (PipelineJob.run cfg initState inp).1.workCount =
      (match inp with | .started _ => 1 | _ => 0) := by
  cases inp <;> rfl

/-- C5: sticky error — once a first `Run` call has returned error `E`,
every later call returns `E` again and the work function is not
re-invoked. -/
theorem run_sticky_error (cfg : JobConfig) (inp : RunInput) (E : JobError)
    (inps : List RunInput)
    (h : (PipelineJob.run cfg initState inp).2 = some E) :
    (∀ r ∈ (runSeq cfg (PipelineJob.run cfg initState inp).1 inps).2, r = some E) ∧
    (runSeq cfg (PipelineJob.run cfg initState inp).1 inps).1.workCount =
      (PipelineJob.run cfg initState inp).1.workCount := by
  have hstart := run_sets_started cfg initState inp
  have herr : (PipelineJob.run cfg initState inp).1.err = some E := by
    rw [← run_ret]; exact h
  rw [runSeq_of_started cfg _ inps hstart]
  constructor
  · intro r hr
    simp only [List.mem_map] at hr
    obtain ⟨_, _, rfl⟩ := hr
    exact herr
  · rfl

/-- A world in which every command succeeds with no output, and an
empty job configuration: concrete instances for the `Run` theorems. -/
def wTriv : ShellWorld :=
  { args := [], exec := fun _ _ _ _ _ => { err := none, output := [] } }

def cfgTriv : JobConfig := { Steps := [], Rerun := false }

theorem run_sticky_error_witness :
    (PipelineJob.run cfgTriv initState (RunInput.startFailed "bad")).2 =
      some (JobError.startFailure "bad") ∧
    (∀ r ∈ (runSeq cfgTriv (PipelineJob.run cfgTriv initState (RunInput.startFailed "bad")).1
        [RunInput.started wTriv]).2, r = some (JobError.startFailure "bad")) ∧
    (runSeq cfgTriv (PipelineJob.run cfgTriv initState (RunInput.startFailed "bad")).1
        [RunInput.started wTriv]).1.workCount =
      (PipelineJob.run cfgTriv initState (RunInput.startFailed "bad")).1.workCount :=
  ⟨rfl, run_sticky_error cfgTriv (RunInput.startFailed "bad") (JobError.startFailure "bad")
    [RunInput.started wTriv] rfl⟩

/-- C6: cancellation observed during parent gating is not an error —
`Run` returns nil, the underlying job is never started and the work
function never runs. -/
theorem run_cancellation_clean (cfg : JobConfig) :
    (PipelineJob.run cfg initState RunInput.cancelledInGate).2 = none ∧
    (PipelineJob.run cfg initState RunInput.cancelledInGate).1.workCount = 0 ∧
    (PipelineJob.run cfg initState RunInput.cancelledInGate).1.startCount = 0 :=
  ⟨rfl, rfl, rfl⟩

/-- C8 counterexample: a caller whose gating observes cancellation
completes with the work function having executed zero times — not
exactly once. -/
theorem run_not_exactly_once :
    (runSeq cfgTriv initState [RunInput.cancelledInGate]).1.workCount = 0 ∧
    ¬ (runSeq cfgTriv initState [RunInput.cancelledInGate]).1.workCount = 1 :=
  ⟨rfl, by decide⟩

/-- C8 amended: across any number of `Run` calls the work function
executes at most once — exactly once when the first call's gating
passes and the job starts — and every call returns the outcome of the
first call. -/
theorem run_at_most_once (cfg : JobConfig) (inp : RunInput) (inps : List RunInput) :
    (runSeq cfg initState (inp :: inps)).1.workCount ≤ 1 ∧
    (∀ r ∈ (runSeq cfg initState (inp :: inps)).2,
      r = (PipelineJob.run cfg initState inp).2) ∧
    (∀ w, inp = RunInput.started w →
      (runSeq cfg initState (inp :: inps)).1.workCount = 1) := by
  have hstart := run_sets_started cfg initState inp
  have hseq : runSeq cfg initState (inp :: inps) =
      ((PipelineJob.run cfg initState inp).1,
        (PipelineJob.run cfg initState inp).2 ::
          inps.map (fun _ => (PipelineJob.run cfg initState inp).1.err)) := by
    simp [runSeq, runSeq_of_started cfg _ inps hstart]
  rw [hseq]
  refine ⟨?_, ?_, ?_⟩
  · rw [run_initial_workCount]
    cases inp <;> simp
  · intro r hr
    rcases List.mem_cons.mp hr with rfl | hr
    · rfl
    · simp only [List.mem_map] at hr
      obtain ⟨_, _, rfl⟩ := hr
      exact (run_ret cfg initState inp).symm
  · rintro w rfl
    rw [run_initial_workCount]

theorem run_at_most_once_witness :
    RunInput.started wTriv = RunInput.started wTriv ∧
    (runSeq cfgTriv initState [RunInput.started wTriv, RunInput.cancelledInGate]).1.workCount = 1 :=
  ⟨rfl, (run_at_most_once cfgTriv (RunInput.started wTriv) [RunInput.cancelledInGate]).2.2
    wTriv rfl⟩

/-- C9: a first call that observed cancellation during gating consumes
the one-time guard for good — every later call, whatever it would
observe, returns nil, and the underlying job is never started nor any
step executed. -/
theorem run_guard_consumed_by_cancellation (cfg : JobConfig) (inps : List RunInput) :
    (∀ r ∈ (runSeq cfg (PipelineJob.run cfg initState RunInput.cancelledInGate).1 inps).2,
      r = none) ∧
    (runSeq cfg (PipelineJob.run cfg initState RunInput.cancelledInGate).1 inps).1.workCount = 0 ∧
    (runSeq cfg (PipelineJob.run cfg initState RunInput.cancelledInGate).1 inps).1.startCount = 0 := by
  have hstart := run_sets_started cfg initState RunInput.cancelledInGate
  rw [runSeq_of_started cfg _ inps hstart]
  refine ⟨?_, rfl, rfl⟩
  intro r hr
  simp only [List.mem_map] at hr
  obtain ⟨_, _, rfl⟩ := hr
  rfl

theorem run_guard_consumed_witness :
    (none : Option JobError) ∈
      (runSeq cfgTriv (PipelineJob.run cfgTriv initState RunInput.cancelledInGate).1
        [RunInput.started wTriv]).2 ∧
    (none : Option JobError) = none :=
  ⟨by decide, (run_guard_consumed_by_cancellation cfgTriv [RunInput.started wTriv]).1
    none (by decide)⟩

/-! ## `printDependencyRecursive` from `cmd/print.go` -/

/-- A resolved dependency as the printer consumes it
(`types.Dependency`): its name, its ID and its child dependencies. -/
inductive Dependency where
  | mk (name : String) (id : String) (children : List Dependency)

def Dependency.name : Dependency → String
  | .mk n _ _ => n

def Dependency.id : Dependency → String
  | .mk _ i _ => i

def Dependency.children : Dependency → List Dependency
  | .mk _ _ cs => cs

mutual
/-- `printDependencyRecursive`: write
`prefix + "> " + dep.Name() + " (ID: " + dep.ID()[:5] + ")\n"`, then
recurse over the children with the prefix extended by `"--"`.  The
unconditional slice `dep.ID()[:5]` faults when the ID has fewer than
five characters; the fault is modelled as `none`, and it propagates
as a Go panic would. -/
def printDep (pre : String) : Dependency → Option (List String)
  | .mk n i cs =>
    if i.length < 5 then none
    else
      match printDeps (pre ++ "--") cs with
      | none => none
      | some rest =>
        some ((pre ++ "> " ++ n ++ " (ID: " ++ String.mk (i.data.take 5) ++ ")") :: rest)

/-- The `for _, child := range dep.Children()` loop of the printer. -/
def printDeps (pre : String) : List Dependency → Option (List String)
  | [] => some []
  | d :: ds =>
    match printDep pre d with
    | none => none
    | some a =>
      match printDeps pre ds with
      | none => none
      | some b => some (a ++ b)
end

mutual
/-- Does every ID in the dependency tree have at least five
characters? -/
def allIdsLong : Dependency → Bool
  | .mk _ i cs => decide (5 ≤ i.length) && allIdsLongList cs

def allIdsLongList : List Dependency → Bool
  | [] => true
  | d :: ds => allIdsLong d && allIdsLongList ds
end

mutual
theorem printDep_isSome (pre : String) (d : Dependency) (h : allIdsLong d = true) :
    (printDep pre d).isSome = true := by
  match d with
  | .mk n i cs =>
    unfold allIdsLong at h
    simp only [Bool.and_eq_true, decide_eq_true_eq] at h
    unfold printDep
    rw [if_neg (by omega)]
    have hcs := printDeps_isSome (pre ++ "--") cs h.2
    cases hc : printDeps (pre ++ "--") cs with
    | none => rw [hc] at hcs; simp at hcs
    | some l => simp

theorem printDeps_isSome (pre : String) (ds : List Dependency)
    (h : allIdsLongList ds = true) : (printDeps pre ds).isSome = true := by
  match ds with
  | [] => simp [printDeps]
  | d :: rest =>
    unfold allIdsLongList at h
    simp only [Bool.and_eq_true] at h
    have h1 := printDep_isSome pre d h.1
    have h2 := printDeps_isSome pre rest h.2
    unfold printDeps
    cases hc1 : printDep pre d with
    | none => rw [hc1] at h1; simp at h1
    | some a =>
      cases hc2 : printDeps pre rest with
      | none => rw [hc2] at h2; simp at h2
      | some b => simp
end

/-- C10: the printer's slice of the ID is unconditional, so the fault
branch is reachable — a dependency whose ID is "abc" makes the printing
fault — and the operation is safe exactly under the precondition that
every ID in the tree has at least five characters. -/
theorem printDependencyRecursive_safety :
    printDep "--" (Dependency.mk "dep1" "abc" []) = none ∧
    ∀ pre dep, allIdsLong dep = true → (printDep pre dep).isSome = true :=
  ⟨by decide, fun pre dep h => printDep_isSome pre dep h⟩

/-- A two-level dependency tree whose IDs all have five characters. -/
def depW : Dependency :=
  Dependency.mk "dep1" "abcde" [Dependency.mk "dep2" "fghij" []]

theorem printDependencyRecursive_safety_witness :
    allIdsLong depW = true ∧ (printDep "--" depW).isSome = true :=
  ⟨by decide, printDependencyRecursive_safety.2 "--" depW (by decide)⟩
